import Mathlib

/-!
Verification development for the `sound_stream` Rust crate.

Shallow embedding of the crate's core: the stream `Settings`
(src/settings.rs), the `take_front` deque helper (src/utils.rs), the
blocking single-input stream iterator (src/stream/input.rs), the
blocking single-output stream iterator (src/stream/output.rs), the
duplex `SoundStream` iterator with its `In` / `Out` / `Update` event
state machine (src/event.rs), and the close/drop lifecycle shared by
all streams.

The PortAudio device is modelled as a trace of responses: each loop
iteration of an iterator's `next()` consumes one trace element holding
the result of the availability query and of the read/write the code
may perform against it.  Machine integers (`u16`, `u32`, `usize`) are
modelled as `Nat`: none of the arithmetic involved (`frames * channels`,
capacity comparisons, integer division) can overflow in the source for
realistic values and the source performs no wrapping arithmetic.
Floating-point parts (the `update_hz` / `buffer_hz` modes and the
delta-time division by 1e9) are outside the embedding; delta times are
kept as integer tick differences.
-/

namespace SoundStream

/-- Settings required for SoundStream (src/settings.rs).
`sample_hz : u32`, `frames : u16`, `channels : u16` become `Nat`. -/
structure Settings where
  sample_hz : Nat
  frames : Nat
  channels : Nat
deriving DecidableEq, Repr

/-- Return the length of a SoundBuffer that would use Settings:
`frames as uint * channels as uint` (src/settings.rs). -/
def Settings.buffer_size (s : Settings) : Nat :=
  s.frames * s.channels

/-- Default, standard constructor for Settings: 44100 Hz, 256 frames,
2 channels (src/settings.rs `cd_quality`). -/
def Settings.cd_quality : Settings :=
  { sample_hz := 44100, frames := 256, channels := 2 }

/-- The size of the VecDeque reservation with headroom for overflowing
samples (src/stream/mod.rs `MINIMUM_BUFFER_RESERVATION = 2048`). -/
def MINIMUM_BUFFER_RESERVATION : Nat := 2048

/-- The reservation requested by the blocking stream constructors:
`max((frames * channels) * 2, MINIMUM_BUFFER_RESERVATION)`
(src/stream/input.rs lines 181-182, src/stream/output.rs lines 179-180,
src/stream/duplex.rs lines 240-245).  This is what is passed to
`VecDeque::with_capacity`; the deque's actual `capacity()` is only
guaranteed to be at least this value. -/
def reservedCapacity (s : Settings) : Nat :=
  max (s.buffer_size * 2) MINIMUM_BUFFER_RESERVATION

/-- An opaque-to-us PortAudio error value (the crate only wraps and
reports these; their content never influences control flow). -/
structure PaError where
  code : Nat
deriving DecidableEq, Repr

/-- The sound_stream Error type (src/error.rs).  Its single variant
wraps a PortAudio error; in particular no `ConfigurationError`-like
variant exists anywhere in the crate. -/
inductive Error where
  | PortAudio (err : PaError)
deriving DecidableEq, Repr

/-- Result of a device call, mirroring `Result<T, pa::Error>` with the
error payload dropped (the code only prints the description). -/
inductive DevRes (α : Type) where
  | ok (val : α)
  | err
deriving DecidableEq, Repr

/-! ## take_front (src/utils.rs)

```rust
pub fn take_front<T>(vec: &mut VecDeque<T>, num_elems: usize) -> Vec<T> {
    (0..num_elems).map(|_| vec.pop_front().unwrap()).collect()
}
```

The `VecDeque` is a `List` with its front at the head.  The `.unwrap()`
on an empty deque is a panic; the model returns `none` in that case and
`some (taken, remaining)` otherwise. -/

/-- `VecDeque::pop_front`. -/
def pop_front {T : Type} : List T → Option (T × List T)
  | [] => none
  | x :: xs => some (x, xs)

/-- `take_front`: pop `num_elems` elements one by one from the front;
`none` models the `unwrap` panic when the deque runs out. -/
def take_front {T : Type} (vec : List T) (num_elems : Nat) :
    Option (List T × List T) :=
  match num_elems with
  | 0 => some ([], vec)
  | Nat.succ n =>
    match pop_front vec with
    | none => none
    | some (x, rest) =>
      match take_front rest n with
      | none => none
      | some (taken, remaining) => some (x :: taken, remaining)

/-! ## Blocking input stream (src/stream/input.rs)

`Iterator::next for BlockingStream<I>` (lines 246-296) loops:

1. if `buffer.len() >= buffer_size` return `Event(take_front(buffer, buffer_size), settings)`;
2. query `get_stream_read_available` (via `wait_for_stream`); on error,
   print one report and return `None`;
3. if `available_frames > 0 && buffer.capacity() >= buffer.len() + available_frames`,
   call `stream.read(available_frames)`; on error print one report and
   return `None`; on success append the returned samples to the buffer.

The device is a trace of loop-iteration responses.  A successful
`read(n)` on a PortAudio stream delivers `n * channels` interleaved
samples; the trace carries whatever sample list the device returned so
that conservation facts hold for arbitrary devices, and well-formedness
of a trace (`WFInTrace`) pins the length to `n * channels`. -/

/-- One loop iteration's device responses for the input stream:
either the availability query fails, or it reports `n` frames together
with the result the stream's `read` call would produce. -/
inductive InStep (I : Type) where
  | availErr
  | avail (n : Nat) (readRes : DevRes (List I))
deriving DecidableEq, Repr

/-- Configuration of a running input `BlockingStream`: its settings and
the deque's actual capacity (`buffer.capacity()`).  Rust guarantees
only that the actual capacity is at least the requested reservation
(`reservedCapacity`); this era's `VecDeque::with_capacity` rounds the
request up (e.g. 4095 for a 2048 request), so `cap` is kept a free
parameter rather than being pinned to the request. -/
structure InCfg where
  settings : Settings
  cap : Nat
deriving DecidableEq, Repr

/-- Result of one call to `next()` on the input stream: the yielded
event payload (if any), the accumulator afterwards, the unconsumed part
of the device trace, the raw device reads performed during the call (in
order), and the number of error reports printed. -/
structure InResult (I : Type) where
  event : Option (List I)
  buffer : List I
  rest : List (InStep I)
  reads : List (List I)
  reports : Nat
deriving DecidableEq, Repr

/-- One call to `Iterator::next` of the input `BlockingStream`.
`take_front` is called only under `buffer_size ≤ buffer.length`, where
it equals `(take, drop)` by `take_front_eq_of_le`; the exhausted-trace
case models the device never becoming ready (the real loop would spin
forever) and yields no event. -/
def inputNext {I : Type} (cfg : InCfg) :
    List I → List (InStep I) → InResult I :=
  fun buffer trace =>
    if cfg.settings.buffer_size ≤ buffer.length then
      { event := some (buffer.take cfg.settings.buffer_size),
        buffer := buffer.drop cfg.settings.buffer_size,
        rest := trace, reads := [], reports := 0 }
    else
      match trace with
      | [] => { event := none, buffer := buffer, rest := [], reads := [], reports := 0 }
      | InStep.availErr :: rest =>
        { event := none, buffer := buffer, rest := rest, reads := [], reports := 1 }
      | InStep.avail n res :: rest =>
        if 0 < n ∧ buffer.length + n ≤ cfg.cap then
          match res with
          | DevRes.err =>
            { event := none, buffer := buffer, rest := rest, reads := [], reports := 1 }
          | DevRes.ok samples =>
            { event := (inputNext cfg (buffer ++ samples) rest).event,
              buffer := (inputNext cfg (buffer ++ samples) rest).buffer,
              rest := (inputNext cfg (buffer ++ samples) rest).rest,
              reads := samples :: (inputNext cfg (buffer ++ samples) rest).reads,
              reports := (inputNext cfg (buffer ++ samples) rest).reports }
        else inputNext cfg buffer rest

/-- Accumulated result of `k` successive `next()` calls (stopping, as a
Rust `for` loop does, at the first call that yields no event). -/
structure InCallsResult (I : Type) where
  events : List (List I)
  buffer : List I
  rest : List (InStep I)
  reads : List (List I)
  reports : Nat
deriving DecidableEq, Repr

/-- `k` successive `next()` calls on the input stream. -/
def inputCalls {I : Type} (cfg : InCfg) :
    Nat → List I → List (InStep I) → InCallsResult I
  | 0, buffer, trace =>
    { events := [], buffer := buffer, rest := trace, reads := [], reports := 0 }
  | Nat.succ k, buffer, trace =>
    match (inputNext cfg buffer trace).event with
    | none =>
      { events := [],
        buffer := (inputNext cfg buffer trace).buffer,
        rest := (inputNext cfg buffer trace).rest,
        reads := (inputNext cfg buffer trace).reads,
        reports := (inputNext cfg buffer trace).reports }
    | some e =>
      { events :=
          e :: (inputCalls cfg k (inputNext cfg buffer trace).buffer
                  (inputNext cfg buffer trace).rest).events,
        buffer := (inputCalls cfg k (inputNext cfg buffer trace).buffer
                     (inputNext cfg buffer trace).rest).buffer,
        rest := (inputCalls cfg k (inputNext cfg buffer trace).buffer
                   (inputNext cfg buffer trace).rest).rest,
        reads := (inputNext cfg buffer trace).reads ++
                   (inputCalls cfg k (inputNext cfg buffer trace).buffer
                      (inputNext cfg buffer trace).rest).reads,
        reports := (inputNext cfg buffer trace).reports +
                     (inputCalls cfg k (inputNext cfg buffer trace).buffer
                        (inputNext cfg buffer trace).rest).reports }

/-- Device contract for one input trace step with `ch` channels: a
successful `read(n)` delivers exactly `n * ch` interleaved samples. -/
def wfInStep {I : Type} (ch : Nat) : InStep I → Bool
  | InStep.availErr => true
  | InStep.avail _ DevRes.err => true
  | InStep.avail n (DevRes.ok samples) => samples.length == n * ch

/-- A device trace honouring the read contract throughout. -/
def WFInTrace {I : Type} (ch : Nat) (trace : List (InStep I)) : Prop :=
  ∀ st ∈ trace, wfInStep ch st = true

/-! ## Blocking output stream (src/stream/output.rs)

`Iterator::next for BlockingStream<'a, O>` (lines 246-326) first
flushes `user_buffer` (samples the caller wrote during the previous
event) into the `buffer` deque, then loops:

1. query `get_stream_write_available`; on error print one report and
   return `None`;
2. with `output_buffer_frames = buffer.len() / channels`: if both the
   available frames and `output_buffer_frames` are positive, take
   either `available_frames * channels` samples (when enough are
   buffered) or the whole buffer from the front and write them to the
   device; on write error print one report and return `None`;
3. if `buffer.len() <= buffer.capacity() - buffer_size`, extend
   `user_buffer` by `buffer_size` zeroed samples and return the slice
   `&mut user_buffer[start..]` (with `start` the pre-extension length)
   as the event; otherwise loop. -/

/-- One loop iteration's device responses for the output stream. -/
inductive OutStep where
  | availErr
  | avail (n : Nat) (writeRes : DevRes Unit)
deriving DecidableEq, Repr

/-- Configuration of a running output `BlockingStream`. -/
structure OutCfg where
  settings : Settings
  cap : Nat
deriving DecidableEq, Repr

/-- The front chunk removed for a device write of `n` available frames:
`(written samples, remaining buffer)`.  Mirrors output.rs lines 285-297
(`take_front` of `available_frames * channels` samples when
`output_buffer_frames >= available_frames`, else the whole buffer). -/
def writeChunk {O : Type} (ch n : Nat) (buffer : List O) : List O × List O :=
  if n ≤ buffer.length / ch then (buffer.take (n * ch), buffer.drop (n * ch))
  else (buffer, [])

/-- Result of one call to `next()` on the output stream: the window
content handed to the caller (if any), the deque and user buffer
afterwards, the unconsumed trace, the payloads successfully written to
the device (in order), and the number of error reports printed. -/
structure OutRes (O : Type) where
  event : Option (List O)
  buffer : List O
  user : List O
  rest : List OutStep
  writes : List (List O)
  reports : Nat
deriving DecidableEq, Repr

/-- The polling loop of the output stream's `next()` (entered after the
user-buffer flush).  `user` is the current `user_buffer`; the returned
window is `user_buffer[start..]` after the zero extension, i.e.
`(user ++ replicate buffer_size zero).drop user.length`. -/
def outputLoop {O : Type} (zero : O) (cfg : OutCfg) :
    List O → List O → List OutStep → OutRes O
  | buffer, user, [] =>
    { event := none, buffer := buffer, user := user, rest := [], writes := [], reports := 0 }
  | buffer, user, OutStep.availErr :: rest =>
    { event := none, buffer := buffer, user := user, rest := rest, writes := [], reports := 1 }
  | buffer, user, OutStep.avail n wres :: rest =>
    if 0 < n ∧ 0 < buffer.length / cfg.settings.channels then
      match wres with
      | DevRes.err =>
        { event := none, buffer := (writeChunk cfg.settings.channels n buffer).2,
          user := user, rest := rest, writes := [], reports := 1 }
      | DevRes.ok _ =>
        if (writeChunk cfg.settings.channels n buffer).2.length
            ≤ cfg.cap - cfg.settings.buffer_size then
          { event := some ((user ++ List.replicate cfg.settings.buffer_size zero).drop user.length),
            buffer := (writeChunk cfg.settings.channels n buffer).2,
            user := user ++ List.replicate cfg.settings.buffer_size zero,
            rest := rest,
            writes := [(writeChunk cfg.settings.channels n buffer).1],
            reports := 0 }
        else
          { event := (outputLoop zero cfg (writeChunk cfg.settings.channels n buffer).2 user rest).event,
            buffer := (outputLoop zero cfg (writeChunk cfg.settings.channels n buffer).2 user rest).buffer,
            user := (outputLoop zero cfg (writeChunk cfg.settings.channels n buffer).2 user rest).user,
            rest := (outputLoop zero cfg (writeChunk cfg.settings.channels n buffer).2 user rest).rest,
            writes := (writeChunk cfg.settings.channels n buffer).1 ::
              (outputLoop zero cfg (writeChunk cfg.settings.channels n buffer).2 user rest).writes,
            reports := (outputLoop zero cfg (writeChunk cfg.settings.channels n buffer).2 user rest).reports }
    else
      if buffer.length ≤ cfg.cap - cfg.settings.buffer_size then
        { event := some ((user ++ List.replicate cfg.settings.buffer_size zero).drop user.length),
          buffer := buffer,
          user := user ++ List.replicate cfg.settings.buffer_size zero,
          rest := rest, writes := [], reports := 0 }
      else outputLoop zero cfg buffer user rest

/-- State carried between `next()` calls on the output stream. -/
structure OutState (O : Type) where
  buffer : List O
  user : List O
deriving DecidableEq, Repr

/-- One call to `Iterator::next` of the output `BlockingStream`: flush
any caller-written samples from `user_buffer` to the deque (clearing
`user_buffer`), then run the polling loop.  When `user` is empty the
append and the clearing are both identities, so the flush is written
unconditionally. -/
def outputNext {O : Type} (zero : O) (cfg : OutCfg) (st : OutState O)
    (trace : List OutStep) : OutRes O :=
  outputLoop zero cfg (st.buffer ++ st.user) [] trace

/-- The caller's activity on the window it was handed: the last
`bufSize` elements of `user_buffer` are replaced by `touch` of their
contents (writing nothing is `touch = fun w => w`). -/
def callerTouch {O : Type} (bufSize : Nat) (touch : List O → List O)
    (user : List O) : List O :=
  user.take (user.length - bufSize) ++ touch (user.drop (user.length - bufSize))

/-- Accumulated result of `k` successive output `next()` calls. -/
structure OutCallsRes (O : Type) where
  events : List (List O)
  st : OutState O
  rest : List OutStep
  writes : List (List O)
  reports : Nat
deriving DecidableEq, Repr

/-- `k` successive `next()` calls on the output stream, with the caller
applying `touch` to each window it is handed before the next call. -/
def outputCalls {O : Type} (zero : O) (cfg : OutCfg)
    (touch : List O → List O) :
    Nat → OutState O → List OutStep → OutCallsRes O
  | 0, st, tr => { events := [], st := st, rest := tr, writes := [], reports := 0 }
  | Nat.succ k, st, tr =>
    match (outputNext zero cfg st tr).event with
    | none =>
      { events := [],
        st := { buffer := (outputNext zero cfg st tr).buffer,
                user := (outputNext zero cfg st tr).user },
        rest := (outputNext zero cfg st tr).rest,
        writes := (outputNext zero cfg st tr).writes,
        reports := (outputNext zero cfg st tr).reports }
    | some w =>
      { events := w ::
          (outputCalls zero cfg touch k
            { buffer := (outputNext zero cfg st tr).buffer,
              user := callerTouch cfg.settings.buffer_size touch
                        (outputNext zero cfg st tr).user }
            (outputNext zero cfg st tr).rest).events,
        st := (outputCalls zero cfg touch k
                { buffer := (outputNext zero cfg st tr).buffer,
                  user := callerTouch cfg.settings.buffer_size touch
                            (outputNext zero cfg st tr).user }
                (outputNext zero cfg st tr).rest).st,
        rest := (outputCalls zero cfg touch k
                  { buffer := (outputNext zero cfg st tr).buffer,
                    user := callerTouch cfg.settings.buffer_size touch
                              (outputNext zero cfg st tr).user }
                  (outputNext zero cfg st tr).rest).rest,
        writes := (outputNext zero cfg st tr).writes ++
                  (outputCalls zero cfg touch k
                    { buffer := (outputNext zero cfg st tr).buffer,
                      user := callerTouch cfg.settings.buffer_size touch
                                (outputNext zero cfg st tr).user }
                    (outputNext zero cfg st tr).rest).writes,
        reports := (outputNext zero cfg st tr).reports +
                   (outputCalls zero cfg touch k
                     { buffer := (outputNext zero cfg st tr).buffer,
                       user := callerTouch cfg.settings.buffer_size touch
                                 (outputNext zero cfg st tr).user }
                     (outputNext zero cfg st tr).rest).reports }

/-- Every element of the list is the silent sample. -/
def allZero {O : Type} (zero : O) (l : List O) : Prop :=
  ∀ x ∈ l, x = zero

/-! ## Duplex SoundStream (src/event.rs)

`Iterator::next for SoundStream` (lines 266-389) loops; each iteration
polls the input availability (reading all available frames into
`input_buffer`), polls the output availability (writing buffered output
to the device), and then inspects `next_event`:

* `NextEvent::In`: once `input_buffer` holds at least
  `update_settings.buffer_size()` samples, remove that many from the
  front, set `next_event = Out`, and yield `Event::In`;
* `NextEvent::Out`: once `output_buffer.len() <= stream_settings.buffer_size()`,
  extend `output_buffer` by `update_settings.buffer_size()` zeroes, set
  `next_event = Update`, and yield `Event::Out` with the slice
  `&mut output_buffer[start..]`;
* `NextEvent::Update`: compute the elapsed time since `last_time`, set
  `next_event = In`, and yield `Event::Update`.

Any device error makes the call return `None`.  Delta times are kept
as integer tick differences (the source divides by 1e9 into an `f64`;
that floating-point step carries no control flow). -/

/-- The three event kinds of the duplex stream (`NextEvent`); also used
as the tag vocabulary when talking about the single-directional
streams' events. -/
inductive Tag where
  | tIn
  | tOut
  | tUpdate
deriving DecidableEq, Repr

/-- The cyclic successor of `NextEvent`: the value the `next()` arms
store back into `next_event` after yielding an event. -/
def tagSucc : Tag → Tag
  | Tag.tIn => Tag.tOut
  | Tag.tOut => Tag.tUpdate
  | Tag.tUpdate => Tag.tIn

/-- `Event<'a, I, O>` of src/event.rs; the `Out` window is carried by
value (its content at hand-out time). -/
inductive SSEvent (I O : Type) where
  | evIn (samples : List I) (settings : Settings)
  | evOut (window : List O) (settings : Settings)
  | evUpdate (dt : Nat)
deriving DecidableEq, Repr

/-- The kind of an event. -/
def tagOf {I O : Type} : SSEvent I O → Tag
  | SSEvent.evIn _ _ => Tag.tIn
  | SSEvent.evOut _ _ => Tag.tOut
  | SSEvent.evUpdate _ => Tag.tUpdate

/-- One loop iteration's device responses for the duplex stream, plus
the monotonic clock reading the `Update` arm would observe. -/
structure SSStep (I : Type) where
  readAvail : DevRes Nat
  readRes : DevRes (List I)
  writeAvail : DevRes Nat
  writeRes : DevRes Unit
  now : Nat
deriving DecidableEq, Repr

/-- The two settings a running SoundStream carries: the device settings
and the settings with the target update rate (`frames` replaced by
`frames_per_update`). -/
structure SSCfg where
  stream_settings : Settings
  update_settings : Settings
deriving DecidableEq, Repr

/-- Mutable state of the SoundStream iterator. -/
structure SSState (I O : Type) where
  input_buffer : List I
  output_buffer : List O
  next_event : Tag
  last_time : Nat
deriving DecidableEq, Repr

/-- State of a freshly started SoundStream (src/event.rs lines 178-188):
empty buffers and `next_event = NextEvent::In`. -/
def ssInit {I O : Type} (t0 : Nat) : SSState I O :=
  { input_buffer := [], output_buffer := [], next_event := Tag.tIn, last_time := t0 }

/-- Input phase of one loop iteration (event.rs lines 283-305): poll
read availability, read everything available into the input buffer;
`none` models the error paths that end the event loop. -/
def ssReadPhase {I : Type} (ibuf : List I) (step : SSStep I) : Option (List I) :=
  match step.readAvail with
  | DevRes.err => none
  | DevRes.ok n =>
    if 0 < n then
      match step.readRes with
      | DevRes.err => none
      | DevRes.ok samples => some (ibuf ++ samples)
    else some ibuf

/-- Output phase of one loop iteration (event.rs lines 307-341): poll
write availability; if frames are writable and buffered, write either
`available * channels` samples from the front (keeping the rest) or the
whole buffer; `none` models the error paths. -/
def ssWritePhase {O : Type} (ch : Nat) (obuf : List O) {I : Type}
    (step : SSStep I) : Option (List O) :=
  match step.writeAvail with
  | DevRes.err => none
  | DevRes.ok n =>
    if 0 < n ∧ 0 < obuf.length / ch then
      match step.writeRes with
      | DevRes.err => none
      | DevRes.ok _ => some (if n ≤ obuf.length / ch then obuf.drop (n * ch) else [])
    else some obuf

/-- One call to `Iterator::next` of the SoundStream: loop over trace
steps until an event is produced (`none` on device error or when the
trace runs out before the loop can emit). -/
def ssNext {I O : Type} (zero : O) (cfg : SSCfg) :
    SSState I O → List (SSStep I) →
      Option (SSEvent I O × SSState I O × List (SSStep I))
  | _, [] => none
  | s, step :: rest =>
    match ssReadPhase s.input_buffer step with
    | none => none
    | some ibuf =>
      match ssWritePhase cfg.stream_settings.channels s.output_buffer step with
      | none => none
      | some obuf =>
        match s.next_event with
        | Tag.tIn =>
          if cfg.update_settings.buffer_size ≤ ibuf.length then
            some (SSEvent.evIn (ibuf.take cfg.update_settings.buffer_size)
                    cfg.update_settings,
                  { input_buffer := ibuf.drop cfg.update_settings.buffer_size,
                    output_buffer := obuf, next_event := Tag.tOut,
                    last_time := s.last_time },
                  rest)
          else
            ssNext zero cfg
              { input_buffer := ibuf, output_buffer := obuf,
                next_event := Tag.tIn, last_time := s.last_time } rest
        | Tag.tOut =>
          if obuf.length ≤ cfg.stream_settings.buffer_size then
            some (SSEvent.evOut
                    ((obuf ++ List.replicate cfg.update_settings.buffer_size zero).drop
                      obuf.length)
                    cfg.update_settings,
                  { input_buffer := ibuf,
                    output_buffer :=
                      obuf ++ List.replicate cfg.update_settings.buffer_size zero,
                    next_event := Tag.tUpdate, last_time := s.last_time },
                  rest)
          else
            ssNext zero cfg
              { input_buffer := ibuf, output_buffer := obuf,
                next_event := Tag.tOut, last_time := s.last_time } rest
        | Tag.tUpdate =>
          some (SSEvent.evUpdate (step.now - s.last_time),
                { input_buffer := ibuf, output_buffer := obuf,
                  next_event := Tag.tIn, last_time := step.now },
                rest)

/-- The events of `k` successive `next()` calls on the SoundStream
(stopping at the first call yielding no event). -/
def ssCalls {I O : Type} (zero : O) (cfg : SSCfg) :
    Nat → SSState I O → List (SSStep I) → List (SSEvent I O)
  | 0, _, _ => []
  | Nat.succ k, s, tr =>
    match ssNext zero cfg s tr with
    | none => []
    | some (e, s2, tr2) => e :: ssCalls zero cfg k s2 tr2

/-- The tag sequence `t, tagSucc t, tagSucc (tagSucc t), …`: a tag list
follows the canonical cycle starting at `t`. -/
def followsFrom : Tag → List Tag → Prop
  | _, [] => True
  | t, x :: xs => x = t ∧ followsFrom (tagSucc t) xs

/-- The `i`-th tag of the canonical cycle starting at `t`. -/
def tagAt (t : Tag) : Nat → Tag
  | 0 => t
  | Nat.succ n => tagAt (tagSucc t) n

/-! ## SoundStreamBuilder configuration (src/event.rs lines 57-117)

`updates_per_buffer` guards its argument with
`assert!(num != 0 && num % 2 == 0, …)` — an assertion failure is a
panic, not a returned value; `AssertResult.panicked` models it.  The
`UpdateFrequency::Hz(f32)` variant computes its frame count in `f32`
arithmetic (outside this embedding); once rounded it enters `run`'s
validation as a plain frame count, which the validation theorems cover
by quantifying over the resulting window. -/

/-- Outcome of a function whose failure mode is an `assert!` panic. -/
inductive AssertResult (α : Type) where
  | ok (val : α)
  | panicked
deriving DecidableEq, Repr

/-- The update-rate request (src/event.rs `UpdateFrequency`, with the
float-valued `Hz` variant outside the embedding). -/
inductive UpdateFrequency where
  | uFrames (frames : Nat)
  | perBuffer (num : Nat)
deriving DecidableEq, Repr

/-- `SoundStreamBuilder::updates_per_buffer` (src/event.rs lines
81-86): `assert!(num != 0 && num % 2 == 0)`, then record
`UpdateFrequency::PerBuffer(num)`. -/
def updates_per_buffer (num : Nat) : AssertResult UpdateFrequency :=
  if num ≠ 0 ∧ num % 2 = 0 then AssertResult.ok (UpdateFrequency.perBuffer num)
  else AssertResult.panicked

/-- `frames_per_update` as computed by `SoundStreamBuilder::run`
(src/event.rs lines 101-110): `Frames(frames)` verbatim,
`PerBuffer(n)` as `stream_settings.frames / n`. -/
def framesPerUpdate (s : Settings) : UpdateFrequency → Nat
  | UpdateFrequency.uFrames f => f
  | UpdateFrequency.perBuffer n => s.frames / n

/-- The acceptance condition of `run`'s assertion (src/event.rs lines
112-115): `frames_per_update == stream_settings.frames ||
frames_per_update <= stream_settings.frames / 2`. -/
def run_update_ok (s : Settings) (w : Nat) : Bool :=
  w == s.frames || decide (w ≤ s.frames / 2)

/-- The validation step of `SoundStreamBuilder::run`: the assertion on
`frames_per_update`, then `update_settings = Settings { frames:
frames_per_update, ..stream_settings }` (src/event.rs lines 112-117). -/
def runValidate (s : Settings) (rate : UpdateFrequency) : AssertResult Settings :=
  if run_update_ok s (framesPerUpdate s rate) = true then
    AssertResult.ok
      { sample_hz := s.sample_hz, frames := framesPerUpdate s rate,
        channels := s.channels }
  else AssertResult.panicked

/-! ## Stream close / drop lifecycle

All four stream types share the same pattern, e.g.
src/stream/duplex.rs lines 304-311:

```rust
pub fn close(&mut self) -> Result<(), Error> {
    self.is_closed = true;
    try!(self.stream.close().map_err(|err| Error::PortAudio(err)));
    try!(pa::terminate().map_err(|err| Error::PortAudio(err)));
    Ok(())
}
```

and lines 313-325:

```rust
fn drop(&mut self) {
    if !self.is_closed {
        if let Err(err) = self.close() {
            println!("An error occurred while closing BlockingStream: {}", err);
        }
    }
}
```

`drop` never unwraps or re-raises: a failing close is printed (counted
by `reported`) and control returns normally. -/

/-- Result of one PortAudio lifecycle call. -/
inductive CallRes where
  | ok
  | fail (err : PaError)
deriving DecidableEq, Repr

/-- The closed-flag state of a stream handle. -/
structure StreamLifecycle where
  is_closed : Bool
deriving DecidableEq, Repr

/-- The device calls `close` can make. -/
inductive DevCall where
  | closeCall
  | terminateCall
deriving DecidableEq, Repr

/-- Outcome of `close`: the returned `Result`, the handle state, and the
device calls performed. -/
structure CloseOutcome where
  result : Option Error
  state : StreamLifecycle
  calls : List DevCall
deriving DecidableEq, Repr

/-- `BlockingStream::close` / `NonBlockingStream::close` /
`SoundStream::close`: set `is_closed = true` first, then attempt
`stream.close()` and `pa::terminate()`, propagating the first error. -/
def closeStream (_s : StreamLifecycle) (closeRes termRes : CallRes) :
    CloseOutcome :=
  match closeRes with
  | CallRes.fail e =>
    { result := some (Error.PortAudio e), state := { is_closed := true },
      calls := [DevCall.closeCall] }
  | CallRes.ok =>
    match termRes with
    | CallRes.fail e =>
      { result := some (Error.PortAudio e), state := { is_closed := true },
        calls := [DevCall.closeCall, DevCall.terminateCall] }
    | CallRes.ok =>
      { result := none, state := { is_closed := true },
        calls := [DevCall.closeCall, DevCall.terminateCall] }

/-- Outcome of `drop`: the handle state afterwards, the device calls
performed, and how many error reports were printed.  `drop` always
returns normally (the source prints a failing close, never panics). -/
structure DropOutcome where
  state : StreamLifecycle
  calls : List DevCall
  reported : Nat
deriving DecidableEq, Repr

/-- `Drop::drop` for the streams: call `close` only when the handle was
never closed; print (not panic) if that close fails. -/
def dropStream (s : StreamLifecycle) (closeRes termRes : CallRes) :
    DropOutcome :=
  if s.is_closed then { state := s, calls := [], reported := 0 }
  else
    match (closeStream s closeRes termRes).result with
    | some _ =>
      { state := (closeStream s closeRes termRes).state,
        calls := (closeStream s closeRes termRes).calls, reported := 1 }
    | none =>
      { state := (closeStream s closeRes termRes).state,
        calls := (closeStream s closeRes termRes).calls, reported := 0 }

/-! ## Event kinds of the single-directional streams -/

/-- The kind, in the duplex tag vocabulary, of an event of the
single-input blocking stream: `Event<I>` of src/stream/input.rs is a
struct `Event(Vec<I>, Settings)` with a single shape, an input-payload
event, so the map is constant. -/
def inEventTag {I : Type} (_payload : List I) : Tag := Tag.tIn

/-- The kind, in the duplex tag vocabulary, of an event of the
single-output blocking stream: `Event<'a, O>` of src/stream/output.rs
is a struct `Event(&'a mut [O], Settings)` with a single shape, an
output-window event, so the map is constant. -/
def outEventTag {O : Type} (_window : List O) : Tag := Tag.tOut

/-! ## take_front lemmas -/

theorem take_front_eq_of_le {T : Type} :
    ∀ (n : Nat) (l : List T), n ≤ l.length →
      take_front l n = some (l.take n, l.drop n) := by
  intro n
  induction n with
  | zero => intro l _; simp [take_front]
  | succ m ih =>
    intro l hle
    cases l with
    | nil => simp at hle
    | cons x xs =>
      have hxs : m ≤ xs.length := by
        simpa [Nat.succ_le_succ_iff] using hle
      simp [take_front, pop_front, ih xs hxs]

theorem take_front_eq_none_of_lt {T : Type} :
    ∀ (n : Nat) (l : List T), l.length < n → take_front l n = none := by
  intro n
  induction n with
  | zero => intro l h; simp at h
  | succ m ih =>
    intro l hlt
    cases l with
    | nil => simp [take_front, pop_front]
    | cons x xs =>
      have hxs : xs.length < m := by
        simpa [Nat.succ_lt_succ_iff] using hlt
      simp [take_front, pop_front, ih xs hxs]

/-! ### Input stream lemmas -/

theorem inputNext_of_le {I : Type} (cfg : InCfg) (buffer : List I)
    (trace : List (InStep I))
    (h : cfg.settings.buffer_size ≤ buffer.length) :
    inputNext cfg buffer trace =
      { event := some (buffer.take cfg.settings.buffer_size),
        buffer := buffer.drop cfg.settings.buffer_size,
        rest := trace, reads := [], reports := 0 } := by
  unfold inputNext
  rw [if_pos h]

/-- Conservation through one `next()` call: the yielded payload followed
by the remaining accumulator equals the starting accumulator followed by
all raw device reads the call performed. -/
theorem inputNext_conserves {I : Type} (cfg : InCfg) :
    ∀ (trace : List (InStep I)) (buffer : List I),
      (inputNext cfg buffer trace).event.getD [] ++ (inputNext cfg buffer trace).buffer
        = buffer ++ ((inputNext cfg buffer trace).reads).flatten := by
  intro trace
  induction trace with
  | nil =>
    intro buffer
    unfold inputNext
    split
    · simp
    · show (InResult.mk none buffer [] ([] : List (List I)) 0).event.getD [] ++ _ = _
      simp
  | cons step rest ih =>
    intro buffer
    unfold inputNext
    split
    · simp
    · cases step with
      | availErr =>
        show (InResult.mk none buffer rest ([] : List (List I)) 1).event.getD [] ++ _ = _
        simp
      | avail n res =>
        by_cases hg : 0 < n ∧ buffer.length + n ≤ cfg.cap
        · cases res with
          | err => simp [hg]
          | ok samples =>
            simp only [hg, if_true]
            show (inputNext cfg (buffer ++ samples) rest).event.getD [] ++
                (inputNext cfg (buffer ++ samples) rest).buffer
              = buffer ++ (samples :: (inputNext cfg (buffer ++ samples) rest).reads).flatten
            rw [ih (buffer ++ samples)]
            simp
        · cases res with
          | err => simp [hg, ih buffer]
          | ok samples => simp [hg, ih buffer]

/-- Every yielded event carries exactly `buffer_size` samples. -/
theorem inputNext_event_length {I : Type} (cfg : InCfg) :
    ∀ (trace : List (InStep I)) (buffer : List I) (e : List I),
      (inputNext cfg buffer trace).event = some e →
      e.length = cfg.settings.buffer_size := by
  intro trace
  induction trace with
  | nil =>
    intro buffer e h
    unfold inputNext at h
    split at h
    · simp at h
      subst h
      simp [List.length_take]
      omega
    · simp at h
  | cons step rest ih =>
    intro buffer e h
    unfold inputNext at h
    split at h
    · simp at h
      subst h
      simp [List.length_take]
      omega
    · cases step with
      | availErr => simp at h
      | avail n res =>
        by_cases hg : 0 < n ∧ buffer.length + n ≤ cfg.cap
        · cases res with
          | err => simp [hg] at h
          | ok samples =>
            simp only [hg, if_true] at h
            exact ih (buffer ++ samples) e h
        · cases res with
          | err =>
            simp only [hg, if_false] at h
            exact ih buffer e h
          | ok samples =>
            simp only [hg, if_false] at h
            exact ih buffer e h

/-- Conservation over any number of `next()` calls. -/
theorem inputCalls_conserves {I : Type} (cfg : InCfg) :
    ∀ (k : Nat) (buffer : List I) (trace : List (InStep I)),
      (inputCalls cfg k buffer trace).events.flatten ++ (inputCalls cfg k buffer trace).buffer
        = buffer ++ ((inputCalls cfg k buffer trace).reads).flatten := by
  intro k
  induction k with
  | zero => intro buffer trace; simp [inputCalls]
  | succ m ih =>
    intro buffer trace
    cases he : (inputNext cfg buffer trace).event with
    | none =>
      have hnext := inputNext_conserves cfg trace buffer
      rw [he] at hnext
      simp only [inputCalls, he]
      simpa using hnext
    | some e =>
      have hnext := inputNext_conserves cfg trace buffer
      rw [he] at hnext
      simp only [Option.getD_some] at hnext
      have hcalls := ih (inputNext cfg buffer trace).buffer (inputNext cfg buffer trace).rest
      simp only [inputCalls, he]
      simp only [List.flatten_cons, List.flatten_append, List.append_assoc]
      rw [hcalls, ← List.append_assoc, hnext]
      simp

/-- Every event over any number of calls has exactly `buffer_size`
samples. -/
theorem inputCalls_event_length {I : Type} (cfg : InCfg) :
    ∀ (k : Nat) (buffer : List I) (trace : List (InStep I)),
      ∀ e ∈ (inputCalls cfg k buffer trace).events,
        e.length = cfg.settings.buffer_size := by
  intro k
  induction k with
  | zero => intro buffer trace e he; simp [inputCalls] at he
  | succ m ih =>
    intro buffer trace e he
    cases hev : (inputNext cfg buffer trace).event with
    | none => simp only [inputCalls, hev] at he; simp at he
    | some e0 =>
      simp only [inputCalls, hev, List.mem_cons] at he
      cases he with
      | inl h => rw [h]; exact inputNext_event_length cfg trace buffer e0 hev
      | inr h => exact ih _ _ e h

/-! ### Output stream lemmas -/

/-- Every window the output loop hands out is exactly `buffer_size`
zeroed samples: the slice starts where the old user buffer ended and
covers precisely the zero extension. -/
theorem outputLoop_event_window {O : Type} (zero : O) (cfg : OutCfg) :
    ∀ (trace : List OutStep) (buffer user w : List O),
      (outputLoop zero cfg buffer user trace).event = some w →
      w = List.replicate cfg.settings.buffer_size zero := by
  intro trace
  induction trace with
  | nil => intro buffer user w h; simp [outputLoop] at h
  | cons step rest ih =>
    intro buffer user w h
    cases step with
    | availErr => simp [outputLoop] at h
    | avail n wres =>
      unfold outputLoop at h
      split at h
      · split at h
        · simp at h
        · split at h
          · simp only [Option.some.injEq] at h
            rw [← h, List.drop_left]
          · exact ih _ _ _ h
      · split at h
        · simp only [Option.some.injEq] at h
          rw [← h, List.drop_left]
        · exact ih _ _ _ h

/-- Every window handed out over any number of output `next()` calls is
exactly `buffer_size` zeroed samples, whatever the caller writes back. -/
theorem outputCalls_event_window {O : Type} (zero : O) (cfg : OutCfg)
    (touch : List O → List O) :
    ∀ (k : Nat) (st : OutState O) (trace : List OutStep),
      ∀ w ∈ (outputCalls zero cfg touch k st trace).events,
        w = List.replicate cfg.settings.buffer_size zero := by
  intro k
  induction k with
  | zero => intro st tr w hw; simp [outputCalls] at hw
  | succ m ih =>
    intro st tr w hw
    cases hev : (outputNext zero cfg st tr).event with
    | none => simp only [outputCalls, hev] at hw; simp at hw
    | some w0 =>
      simp only [outputCalls, hev, List.mem_cons] at hw
      cases hw with
      | inl h =>
        rw [h]
        exact outputLoop_event_window zero cfg tr _ _ w0 hev
      | inr h => exact ih _ _ w h

theorem allZero_append {O : Type} (zero : O) (l r : List O)
    (hl : allZero zero l) (hr : allZero zero r) : allZero zero (l ++ r) := by
  intro x hx
  rcases List.mem_append.mp hx with h | h
  · exact hl x h
  · exact hr x h

theorem allZero_take {O : Type} (zero : O) (l : List O) (n : Nat)
    (h : allZero zero l) : allZero zero (l.take n) :=
  fun x hx => h x (List.take_subset n l hx)

theorem allZero_drop {O : Type} (zero : O) (l : List O) (n : Nat)
    (h : allZero zero l) : allZero zero (l.drop n) :=
  fun x hx => h x (List.drop_subset n l hx)

theorem allZero_replicate {O : Type} (zero : O) (n : Nat) :
    allZero zero (List.replicate n zero) := by
  intro x hx
  exact List.eq_of_mem_replicate hx

theorem writeChunk_allZero {O : Type} (zero : O) (ch n : Nat)
    (buffer : List O) (h : allZero zero buffer) :
    allZero zero (writeChunk ch n buffer).1 ∧
      allZero zero (writeChunk ch n buffer).2 := by
  unfold writeChunk
  split
  · exact ⟨allZero_take zero buffer _ h, allZero_drop zero buffer _ h⟩
  · exact ⟨h, fun x hx => absurd hx (List.not_mem_nil x)⟩

/-- If the deque and the user buffer hold only silence, then everything
the output loop writes to the device, and the buffers it leaves behind,
hold only silence. -/
theorem outputLoop_allZero {O : Type} (zero : O) (cfg : OutCfg) :
    ∀ (trace : List OutStep) (buffer user : List O),
      allZero zero buffer → allZero zero user →
      allZero zero (outputLoop zero cfg buffer user trace).buffer ∧
      allZero zero (outputLoop zero cfg buffer user trace).user ∧
      ∀ p ∈ (outputLoop zero cfg buffer user trace).writes, allZero zero p := by
  intro trace
  induction trace with
  | nil =>
    intro buffer user hb hu
    refine ⟨hb, hu, ?_⟩
    intro p hp
    simp [outputLoop] at hp
  | cons step rest ih =>
    intro buffer user hb hu
    cases step with
    | availErr =>
      refine ⟨hb, hu, ?_⟩
      intro p hp
      simp [outputLoop] at hp
    | avail n wres =>
      unfold outputLoop
      split
      · split
        · refine ⟨(writeChunk_allZero zero _ n buffer hb).2, hu, ?_⟩
          intro p hp
          simp at hp
        · split
          · refine ⟨(writeChunk_allZero zero _ n buffer hb).2,
              allZero_append zero _ _ hu (allZero_replicate zero _), ?_⟩
            intro p hp
            simp at hp
            rw [hp]
            exact (writeChunk_allZero zero _ n buffer hb).1
          · have hrec := ih (writeChunk cfg.settings.channels n buffer).2 user
              (writeChunk_allZero zero _ n buffer hb).2 hu
            refine ⟨hrec.1, hrec.2.1, ?_⟩
            intro p hp
            simp only [List.mem_cons] at hp
            cases hp with
            | inl h => rw [h]; exact (writeChunk_allZero zero _ n buffer hb).1
            | inr h => exact hrec.2.2 p h
      · split
        · refine ⟨hb, allZero_append zero _ _ hu (allZero_replicate zero _), ?_⟩
          intro p hp
          simp at hp
        · exact ih buffer user hb hu

/-- Silence over a whole run: a caller that never writes into its
windows (`touch` is the identity) causes every payload the output
stream writes to the device to be pure silence. -/
theorem outputCalls_allZero {O : Type} (zero : O) (cfg : OutCfg) :
    ∀ (k : Nat) (st : OutState O) (trace : List OutStep),
      allZero zero st.buffer → allZero zero st.user →
      ∀ p ∈ (outputCalls zero cfg (fun w => w) k st trace).writes,
        allZero zero p := by
  intro k
  induction k with
  | zero => intro st tr _ _ p hp; simp [outputCalls] at hp
  | succ m ih =>
    intro st tr hb hu p hp
    have hflush : allZero zero (st.buffer ++ st.user) :=
      allZero_append zero _ _ hb hu
    have hnil : allZero zero ([] : List O) :=
      fun x hx => absurd hx (List.not_mem_nil x)
    have hloop := outputLoop_allZero zero cfg tr (st.buffer ++ st.user) [] hflush hnil
    cases hev : (outputNext zero cfg st tr).event with
    | none =>
      simp only [outputCalls, hev] at hp
      exact hloop.2.2 p hp
    | some w0 =>
      simp only [outputCalls, hev, List.mem_append] at hp
      cases hp with
      | inl h => exact hloop.2.2 p h
      | inr h =>
        refine ih _ _ ?_ ?_ p h
        · exact hloop.1
        · unfold callerTouch
          refine allZero_append zero _ _ ?_ ?_
          · exact allZero_take zero _ _ hloop.2.1
          · exact allZero_drop zero _ _ hloop.2.1

/-! ### SoundStream lemmas -/

/-- A yielded event's kind is the current `next_event` and the stored
`next_event` advances one step along the cycle. -/
theorem ssNext_tag {I O : Type} (zero : O) (cfg : SSCfg) :
    ∀ (trace : List (SSStep I)) (s : SSState I O) (e : SSEvent I O)
      (s2 : SSState I O) (tr2 : List (SSStep I)),
      ssNext zero cfg s trace = some (e, s2, tr2) →
      tagOf e = s.next_event ∧ s2.next_event = tagSucc s.next_event := by
  intro trace
  induction trace with
  | nil => intro s e s2 tr2 h; simp [ssNext] at h
  | cons step rest ih =>
    intro s e s2 tr2 h
    unfold ssNext at h
    cases hr : ssReadPhase s.input_buffer step with
    | none => rw [hr] at h; simp at h
    | some ibuf =>
      rw [hr] at h
      cases hw : ssWritePhase cfg.stream_settings.channels s.output_buffer step with
      | none => rw [hw] at h; simp at h
      | some obuf =>
        rw [hw] at h
        cases hs : s.next_event with
        | tIn =>
          rw [hs] at h
          simp only [] at h
          split at h
          · simp only [Option.some.injEq, Prod.mk.injEq] at h
            obtain ⟨he, hst, _⟩ := h
            rw [← he, ← hst]
            exact ⟨rfl, rfl⟩
          · have := ih _ e s2 tr2 h
            simpa [tagSucc] using this
        | tOut =>
          rw [hs] at h
          simp only [] at h
          split at h
          · simp only [Option.some.injEq, Prod.mk.injEq] at h
            obtain ⟨he, hst, _⟩ := h
            rw [← he, ← hst]
            exact ⟨rfl, rfl⟩
          · have := ih _ e s2 tr2 h
            simpa [tagSucc] using this
        | tUpdate =>
          rw [hs] at h
          simp only [Option.some.injEq, Prod.mk.injEq] at h
          obtain ⟨he, hst, _⟩ := h
          rw [← he, ← hst]
          exact ⟨rfl, rfl⟩

/-- The tags of the events of any run follow the cycle starting at the
current `next_event`. -/
theorem ssCalls_follows {I O : Type} (zero : O) (cfg : SSCfg) :
    ∀ (k : Nat) (s : SSState I O) (trace : List (SSStep I)),
      followsFrom s.next_event ((ssCalls zero cfg k s trace).map tagOf) := by
  intro k
  induction k with
  | zero => intro s tr; simp [ssCalls, followsFrom]
  | succ m ih =>
    intro s tr
    cases hn : ssNext zero cfg s tr with
    | none => simp [ssCalls, hn, followsFrom]
    | some est =>
      obtain ⟨e, s2, tr2⟩ := est
      have htag := ssNext_tag zero cfg tr s e s2 tr2 hn
      simp only [ssCalls, hn, List.map_cons]
      refine ⟨htag.1, ?_⟩
      have hrest := ih s2 tr2
      rw [htag.2] at hrest
      exact hrest

/-- Positionally: a cycle-following list has `tagAt t i` at index `i`. -/
theorem followsFrom_get :
    ∀ (l : List Tag) (t : Tag), followsFrom t l →
      ∀ (i : Nat) (h : i < l.length), l.get ⟨i, h⟩ = tagAt t i := by
  intro l
  induction l with
  | nil => intro t _ i h; simp at h
  | cons x xs ih =>
    intro t hf i h
    cases i with
    | zero => simpa [tagAt] using hf.1
    | succ j =>
      have hj : j < xs.length := Nat.lt_of_succ_lt_succ h
      simpa [tagAt] using ih (tagSucc t) hf.2 j hj

/-- Every `Out` window the SoundStream hands out is exactly
`update_settings.buffer_size()` zeroed samples, appended after the
samples already pending in `output_buffer`. -/
theorem ssNext_out_window {I O : Type} (zero : O) (cfg : SSCfg) :
    ∀ (trace : List (SSStep I)) (s : SSState I O) (w : List O)
      (st : Settings) (s2 : SSState I O) (tr2 : List (SSStep I)),
      ssNext zero cfg s trace = some (SSEvent.evOut w st, s2, tr2) →
      w = List.replicate cfg.update_settings.buffer_size zero ∧
        s2.output_buffer =
          s2.output_buffer.take (s2.output_buffer.length -
            cfg.update_settings.buffer_size) ++ w := by
  intro trace
  induction trace with
  | nil => intro s w st s2 tr2 h; simp [ssNext] at h
  | cons step rest ih =>
    intro s w st s2 tr2 h
    unfold ssNext at h
    cases hr : ssReadPhase s.input_buffer step with
    | none => rw [hr] at h; simp at h
    | some ibuf =>
      rw [hr] at h
      cases hw : ssWritePhase cfg.stream_settings.channels s.output_buffer step with
      | none => rw [hw] at h; simp at h
      | some obuf =>
        rw [hw] at h
        cases hs : s.next_event with
        | tIn =>
          rw [hs] at h
          simp only [] at h
          split at h
          · simp at h
          · exact ih _ w st s2 tr2 h
        | tOut =>
          rw [hs] at h
          simp only [] at h
          split at h
          · simp only [Option.some.injEq, Prod.mk.injEq, SSEvent.evOut.injEq] at h
            obtain ⟨⟨hwin, _⟩, hst, _⟩ := h
            have hwz : w = List.replicate cfg.update_settings.buffer_size zero := by
              rw [← hwin, List.drop_left]
            refine ⟨hwz, ?_⟩
            rw [← hst]
            simp only []
            rw [hwz]
            simp [List.take_append_of_le_length]
          · exact ih _ w st s2 tr2 h
        | tUpdate =>
          rw [hs] at h
          simp at h

/-- With one channel (so a read of `n` frames delivers `n` samples, as
`WFInTrace` records), the read guard
`buffer.capacity() >= buffer.len() + available_frames` keeps the
accumulator within capacity across one `next()` call. -/
theorem inputNext_length_le {I : Type} (cfg : InCfg)
    (hch : cfg.settings.channels = 1) :
    ∀ (trace : List (InStep I)) (buffer : List I),
      WFInTrace cfg.settings.channels trace →
      buffer.length ≤ cfg.cap →
      (inputNext cfg buffer trace).buffer.length ≤ cfg.cap := by
  intro trace
  induction trace with
  | nil =>
    intro buffer _ hb
    unfold inputNext
    split
    · simpa using Nat.le_trans (Nat.sub_le _ _) hb
    · exact hb
  | cons step rest ih =>
    intro buffer hwf hb
    have hwfRest : WFInTrace cfg.settings.channels rest :=
      fun st hst => hwf st (List.mem_cons_of_mem step hst)
    unfold inputNext
    split
    · simpa using Nat.le_trans (Nat.sub_le _ _) hb
    · cases step with
      | availErr => exact hb
      | avail n res =>
        by_cases hg : 0 < n ∧ buffer.length + n ≤ cfg.cap
        · cases res with
          | err => simp only [hg, if_true]; exact hb
          | ok samples =>
            simp only [hg, if_true]
            have hlen : samples.length = n * cfg.settings.channels := by
              have := hwf (InStep.avail n (DevRes.ok samples)) (List.mem_cons_self _ _)
              simpa [wfInStep] using this
            refine ih (buffer ++ samples) hwfRest ?_
            rw [List.length_append, hlen, hch, Nat.mul_one]
            exact hg.2
        · cases res with
          | err => simp only [hg, if_false]; exact ih buffer hwfRest hb
          | ok samples => simp only [hg, if_false]; exact ih buffer hwfRest hb

/-- The trace left unconsumed by `inputNext` is still well-formed. -/
theorem inputNext_rest_wf {I : Type} (cfg : InCfg) (ch : Nat) :
    ∀ (trace : List (InStep I)) (buffer : List I),
      WFInTrace ch trace →
      WFInTrace ch (inputNext cfg buffer trace).rest := by
  intro trace
  induction trace with
  | nil =>
    intro buffer hwf
    unfold inputNext
    split
    · exact hwf
    · intro st hst; simp at hst
  | cons step rest ih =>
    intro buffer hwf
    have hwfRest : WFInTrace ch rest :=
      fun st hst => hwf st (List.mem_cons_of_mem step hst)
    unfold inputNext
    split
    · exact hwf
    · cases step with
      | availErr => exact hwfRest
      | avail n res =>
        by_cases hg : 0 < n ∧ buffer.length + n ≤ cfg.cap
        · cases res with
          | err => simp only [hg, if_true]; exact hwfRest
          | ok samples => simp only [hg, if_true]; exact ih _ hwfRest
        · cases res with
          | err => simp only [hg, if_false]; exact ih _ hwfRest
          | ok samples => simp only [hg, if_false]; exact ih _ hwfRest

/-- The one-channel capacity bound extends over any number of calls. -/
theorem inputCalls_length_le {I : Type} (cfg : InCfg)
    (hch : cfg.settings.channels = 1) :
    ∀ (k : Nat) (buffer : List I) (trace : List (InStep I)),
      WFInTrace cfg.settings.channels trace →
      buffer.length ≤ cfg.cap →
      (inputCalls cfg k buffer trace).buffer.length ≤ cfg.cap := by
  intro k
  induction k with
  | zero => intro buffer trace _ hb; simpa [inputCalls] using hb
  | succ m ih =>
    intro buffer trace hwf hb
    have hnext := inputNext_length_le cfg hch trace buffer hwf hb
    have hrest := inputNext_rest_wf cfg cfg.settings.channels trace buffer hwf
    cases hev : (inputNext cfg buffer trace).event with
    | none => simp only [inputCalls, hev]; exact hnext
    | some e => simp only [inputCalls, hev]; exact ih _ _ hrest hnext

/-- Every `Out` event over a whole SoundStream run hands out a window of
exactly `update_settings.buffer_size()` zeroed samples. -/
theorem ssCalls_out_window {I O : Type} (zero : O) (cfg : SSCfg) :
    ∀ (k : Nat) (s : SSState I O) (trace : List (SSStep I)),
      ∀ e ∈ ssCalls zero cfg k s trace, ∀ (w : List O) (stg : Settings),
        e = SSEvent.evOut w stg →
        w = List.replicate cfg.update_settings.buffer_size zero := by
  intro k
  induction k with
  | zero => intro s tr e he; simp [ssCalls] at he
  | succ m ih =>
    intro s tr e he w stg hw
    cases hn : ssNext zero cfg s tr with
    | none => simp only [ssCalls, hn] at he; simp at he
    | some est =>
      obtain ⟨e0, s2, tr2⟩ := est
      simp only [ssCalls, hn, List.mem_cons] at he
      cases he with
      | inl h =>
        rw [h] at hw
        rw [hw] at hn
        exact (ssNext_out_window zero cfg tr s w stg s2 tr2 hn).1
      | inr h => exact ih s2 tr2 e h w stg hw

/-! ## Claim theorems -/

/-- C1: For every sequence of device reads delivered to a blocking
input stream, the concatenation of the payloads of all In events
yielded by successive next() calls is, in order, a prefix of the
concatenation of the raw device reads (the unconsumed remainder is
exactly the accumulator left behind), with no sample lost, duplicated,
or reordered; and each event carries exactly
buffer_size() = frames * channels samples taken from the front of the
accumulator. -/
theorem C1_input_conservation {I : Type} (cfg : InCfg) (k : Nat)
    (trace : List (InStep I)) :
    ((inputCalls cfg k [] trace).events.flatten ++ (inputCalls cfg k [] trace).buffer
        = ((inputCalls cfg k [] trace).reads).flatten) ∧
    (∃ rest, (inputCalls cfg k [] trace).events.flatten ++ rest
        = ((inputCalls cfg k [] trace).reads).flatten) ∧
    (∀ e ∈ (inputCalls cfg k [] trace).events,
        e.length = cfg.settings.buffer_size) := by
  have h := inputCalls_conserves cfg k [] trace
  simp only [List.nil_append] at h
  exact ⟨h, ⟨_, h⟩, inputCalls_event_length cfg k [] trace⟩

theorem C1_input_conservation_witness :
    ([7] : List Nat).length
      = (InCfg.mk (Settings.mk 8000 1 1) 2048).settings.buffer_size :=
  (C1_input_conservation (InCfg.mk (Settings.mk 8000 1 1) 2048) 1
      [InStep.avail 1 (DevRes.ok [7])]).2.2 [7] (by decide)

/-- C2: For every duplex SoundStream iterator, the sequence of events
produced by successive next() calls follows the cycle In, Out, Update,
repeating (`followsFrom Tag.tIn`, equivalently the i-th event's kind is
`tagAt Tag.tIn i`), and the first event produced after stream start
(state `ssInit`, with `next_event = In`) is always In. -/
theorem C2_event_cycle {I O : Type} (zero : O) (cfg : SSCfg) (t0 : Nat)
    (k : Nat) (trace : List (SSStep I)) :
    followsFrom Tag.tIn ((ssCalls zero cfg k (ssInit t0) trace).map tagOf) ∧
    ∀ (i : Nat)
      (h : i < ((ssCalls zero cfg k (ssInit t0) trace).map tagOf).length),
      ((ssCalls zero cfg k (ssInit t0) trace).map tagOf).get ⟨i, h⟩
        = tagAt Tag.tIn i := by
  have h := ssCalls_follows zero cfg k (ssInit t0) trace
  exact ⟨h, followsFrom_get _ _ h⟩

theorem C2_event_cycle_witness :
    ((ssCalls (0 : Nat) (SSCfg.mk (Settings.mk 8000 1 1) (Settings.mk 8000 1 1)) 1
        (ssInit 0)
        [SSStep.mk (DevRes.ok 1) (DevRes.ok [5]) (DevRes.ok 0) (DevRes.ok ()) 3]).map
      tagOf).get ⟨0, by decide⟩ = tagAt Tag.tIn 0 :=
  (C2_event_cycle (0 : Nat) (SSCfg.mk (Settings.mk 8000 1 1) (Settings.mk 8000 1 1))
    0 1 [SSStep.mk (DevRes.ok 1) (DevRes.ok [5]) (DevRes.ok 0) (DevRes.ok ()) 3]).2 0 (by decide)

/-- C3 counterexample: a failing availability query makes that next()
call yield no event, but the stream is not marked exhausted — on the
very same stream (same accumulator, same continuing device trace) the
following next() call yields an event once the device stops failing,
refuting "every subsequent next() call also yields no event". -/
theorem C3_counterexample :
    ((inputNext (InCfg.mk (Settings.mk 8000 1 1) 2048) ([] : List Nat)
        [InStep.availErr, InStep.avail 1 (DevRes.ok [5])]).event
      = none) ∧
    ((inputNext (InCfg.mk (Settings.mk 8000 1 1) 2048)
        (inputNext (InCfg.mk (Settings.mk 8000 1 1) 2048) ([] : List Nat)
          [InStep.availErr, InStep.avail 1 (DevRes.ok [5])]).buffer
        (inputNext (InCfg.mk (Settings.mk 8000 1 1) 2048) ([] : List Nat)
          [InStep.availErr, InStep.avail 1 (DevRes.ok [5])]).rest).event.isSome
      = true) := by
  constructor
  · rfl
  · rfl

/-- C3 (amended): after a device availability or read failure, that
next() call yields no event and the failure is reported exactly once;
the accumulator is left unchanged and the stream is not marked
exhausted, so subsequent calls keep yielding no event only while the
device keeps failing. -/
theorem C3_amended {I : Type} (cfg : InCfg) (buffer : List I)
    (trace : List (InStep I))
    (h : buffer.length < cfg.settings.buffer_size) :
    ((inputNext cfg buffer (InStep.availErr :: trace)).event = none ∧
     (inputNext cfg buffer (InStep.availErr :: trace)).buffer = buffer ∧
     (inputNext cfg buffer (InStep.availErr :: trace)).reports = 1) ∧
    (∀ (n : Nat), 0 < n → buffer.length + n ≤ cfg.cap →
      (inputNext cfg buffer (InStep.avail n DevRes.err :: trace)).event = none ∧
      (inputNext cfg buffer (InStep.avail n DevRes.err :: trace)).buffer = buffer ∧
      (inputNext cfg buffer (InStep.avail n DevRes.err :: trace)).reports = 1) := by
  have hnle : ¬ cfg.settings.buffer_size ≤ buffer.length := Nat.not_le.mpr h
  constructor
  · unfold inputNext
    rw [if_neg hnle]
    exact ⟨rfl, rfl, rfl⟩
  · intro n hn hcap
    unfold inputNext
    rw [if_neg hnle]
    simp only [And.intro hn hcap, if_true]
    exact ⟨rfl, rfl, rfl⟩

theorem C3_amended_witness :
    (inputNext (InCfg.mk Settings.cd_quality 2048) ([] : List Nat)
      [InStep.avail 8 DevRes.err]).reports = 1 :=
  ((C3_amended (InCfg.mk Settings.cd_quality 2048) ([] : List Nat) []
      (by decide)).2 8 (by decide) (by decide)).2.2

/-- C4 counterexample: updates_per_buffer(3) fails the assertion
`num != 0 && num % 2 == 0` and panics — nothing is returned to the
caller, and the crate's Error type (src/error.rs) has no
ConfigurationError variant that could be returned. -/
theorem C4_counterexample :
    updates_per_buffer 3 = AssertResult.panicked := by decide

/-- C4 (amended): requesting updates_per_buffer(3) (odd) fails the
builder's assertion (a panic, not an error value returned to the
caller); requesting updates_per_buffer(4) succeeds and, on a stream
whose Settings have frames = 256, run computes a frames-per-update
window of exactly 64 (and accepts it). -/
theorem C4_amended :
    updates_per_buffer 3 = AssertResult.panicked ∧
    updates_per_buffer 4 = AssertResult.ok (UpdateFrequency.perBuffer 4) ∧
    framesPerUpdate (Settings.mk 44100 256 2) (UpdateFrequency.perBuffer 4) = 64 ∧
    runValidate (Settings.mk 44100 256 2) (UpdateFrequency.perBuffer 4)
      = AssertResult.ok (Settings.mk 44100 64 2) := by decide

/-- C5: For every configured update rate, SoundStreamBuilder::run
accepts the resulting frames-per-update window exactly when it equals
the stream's device frames or is no greater than half of it, and
rejects (assertion failure) every configuration whose window falls
strictly between frames/2 and frames. -/
theorem C5_run_validation (s : Settings) (rate : UpdateFrequency) :
    ((runValidate s rate ≠ AssertResult.panicked) ↔
      (framesPerUpdate s rate = s.frames ∨
        framesPerUpdate s rate ≤ s.frames / 2)) ∧
    (s.frames / 2 < framesPerUpdate s rate → framesPerUpdate s rate < s.frames →
      runValidate s rate = AssertResult.panicked) := by
  constructor
  · unfold runValidate
    by_cases hc : run_update_ok s (framesPerUpdate s rate) = true
    · rw [if_pos hc]
      constructor
      · intro _
        simpa [run_update_ok] using hc
      · intro _
        simp
    · rw [if_neg hc]
      simp only [ne_eq, not_true_eq_false, false_iff]
      intro hp
      apply hc
      simpa [run_update_ok] using hp
  · intro hlo hhi
    have hc : ¬ run_update_ok s (framesPerUpdate s rate) = true := by
      simp only [run_update_ok, Bool.or_eq_true, beq_iff_eq, decide_eq_true_eq]
      rintro (h | h) <;> omega
    unfold runValidate
    rw [if_neg hc]

theorem C5_run_validation_witness :
    runValidate (Settings.mk 44100 256 2) (UpdateFrequency.uFrames 200)
      = AssertResult.panicked :=
  (C5_run_validation (Settings.mk 44100 256 2) (UpdateFrequency.uFrames 200)).2
    (by decide) (by decide)

/-- C6: For every deque and every n not exceeding its length,
take_front(vec, n) removes and returns exactly the first n elements in
their original order, leaving precisely the remaining elements in the
deque in order (their concatenation restores the deque); when fewer
than n elements are present it fails (the unwrap panic, modelled as
`none`) rather than returning a shorter result. -/
theorem C6_take_front {T : Type} (l : List T) (n : Nat) :
    (n ≤ l.length →
      take_front l n = some (l.take n, l.drop n) ∧ l.take n ++ l.drop n = l) ∧
    (l.length < n → take_front l n = none) :=
  ⟨fun h => ⟨take_front_eq_of_le n l h, List.take_append_drop n l⟩,
   fun h => take_front_eq_none_of_lt n l h⟩

theorem C6_take_front_witness :
    ((take_front [1, 2, 3] 2 = some (([1, 2] : List Nat), [3]) ∧
        ([1, 2] : List Nat) ++ [3] = [1, 2, 3]) ∧
      take_front ([1] : List Nat) 2 = none) :=
  ⟨(C6_take_front [1, 2, 3] 2).1 (by decide),
   (C6_take_front [1] 2).2 (by decide)⟩

/-- A first loop iteration with an in-guard successful read: the call
continues with the read samples appended, recording the raw read. -/
theorem inputNext_cons_read {I : Type} (cfg : InCfg) (buffer samples : List I)
    (n : Nat) (rest : List (InStep I))
    (hlt : ¬ cfg.settings.buffer_size ≤ buffer.length)
    (hg : 0 < n ∧ buffer.length + n ≤ cfg.cap) :
    inputNext cfg buffer (InStep.avail n (DevRes.ok samples) :: rest) =
      { event := (inputNext cfg (buffer ++ samples) rest).event,
        buffer := (inputNext cfg (buffer ++ samples) rest).buffer,
        rest := (inputNext cfg (buffer ++ samples) rest).rest,
        reads := samples :: (inputNext cfg (buffer ++ samples) rest).reads,
        reports := (inputNext cfg (buffer ++ samples) rest).reports } := by
  conv_lhs => unfold inputNext
  rw [if_neg hlt]
  simp only [hg, and_self, if_true]

/-- C7 counterexample: with the default settings (2 channels, 256
frames, reserved capacity max(512 * 2, 2048) = 2048) a single
well-formed device poll reporting 2048 available frames passes the
guard `capacity >= len + available_frames` (which counts frames, not
samples), the read delivers 2048 * 2 = 4096 samples, and after the
512-sample event is taken the accumulator still holds 3584 > 2048
samples. -/
theorem C7_counterexample :
    WFInTrace (Settings.cd_quality).channels
        [InStep.avail 2048 (DevRes.ok (List.replicate 4096 (0 : Nat)))] ∧
    reservedCapacity Settings.cd_quality <
      (inputCalls
        (InCfg.mk Settings.cd_quality (reservedCapacity Settings.cd_quality)) 1
        ([] : List Nat)
        [InStep.avail 2048 (DevRes.ok (List.replicate 4096 (0 : Nat)))]).buffer.length := by
  have hbs : (InCfg.mk Settings.cd_quality
      (reservedCapacity Settings.cd_quality)).settings.buffer_size = 512 := rfl
  constructor
  · intro st hst
    simp only [List.mem_singleton] at hst
    rw [hst]
    show ((List.replicate 4096 (0 : Nat)).length
      == 2048 * (Settings.cd_quality).channels) = true
    rw [List.length_replicate]
    rfl
  · have hcap : reservedCapacity Settings.cd_quality = 2048 := rfl
    have h1 := inputNext_cons_read
      (InCfg.mk Settings.cd_quality (reservedCapacity Settings.cd_quality))
      ([] : List Nat) (List.replicate 4096 0) 2048 []
      (by rw [hbs, List.length_nil]; omega)
      (by rw [List.length_nil]; constructor
          · omega
          · show 0 + 2048 ≤ reservedCapacity Settings.cd_quality
            rw [hcap])
    have h2 := inputNext_of_le
      (InCfg.mk Settings.cd_quality (reservedCapacity Settings.cd_quality))
      (([] : List Nat) ++ List.replicate 4096 0) []
      (by rw [hbs, List.nil_append, List.length_replicate]; omega)
    simp only [inputCalls, h1, h2]
    rw [hcap, hbs, List.nil_append, List.length_drop, List.length_replicate]
    omega

/-- C7 (amended): the capacity guard protects only the single input
stream, and only counts frames: a device read is performed only when
buffer.len() + available_frames ≤ buffer.capacity().  When the stream
has one channel — so a well-formed read of n frames delivers exactly n
samples — the input accumulator's length never exceeds the deque's
actual capacity (whatever value `cap` the allocation provides; Rust
guarantees only that it is at least the requested
max(2 * frames * channels, 2048), and this era's VecDeque reserves
more, e.g. 4095 for a 2048 request), both across one next() call from
any in-bound accumulator and across any number of calls from the empty
accumulator.  The requested reservation itself is not a bound on the
length: the actual capacity may exceed it, with more than one channel
a read delivers available_frames * channels samples against the
frames-only guard, and the duplex stream's input read has no capacity
guard at all — see the counterexample. -/
theorem C7_amended {I : Type} (s : Settings) (cap k : Nat)
    (trace : List (InStep I)) (hch : s.channels = 1)
    (hwf : WFInTrace s.channels trace) :
    (∀ (buffer : List I) (tr2 : List (InStep I)), WFInTrace s.channels tr2 →
      buffer.length ≤ cap →
      (inputNext (InCfg.mk s cap) buffer tr2).buffer.length ≤ cap) ∧
    (inputCalls (InCfg.mk s cap) k [] trace).buffer.length ≤ cap := by
  constructor
  · intro buffer tr2 hwf2 hb
    exact inputNext_length_le (InCfg.mk s cap) hch tr2 buffer hwf2 hb
  · exact inputCalls_length_le (InCfg.mk s cap) hch k [] trace hwf (by simp)

theorem C7_amended_witness :
    (inputCalls (InCfg.mk (Settings.mk 8000 4 1) 4095)
      1 ([] : List Nat) [InStep.avail 4 (DevRes.ok [9, 9, 9, 9])]).buffer.length
      ≤ 4095 :=
  (C7_amended (Settings.mk 8000 4 1) 4095 1 [InStep.avail 4 (DevRes.ok [9, 9, 9, 9])]
    (by decide) (by intro st hst; simp only [List.mem_singleton] at hst; rw [hst]; decide)).2

/-- C8 counterexample: a single-directional blocking input stream with
default settings, fed two device buffers worth of samples, yields two
events whose kinds are [In, In] — the second event is another In, not
the Update the claim requires, because the single-directional Event
type has no Update variant at all. -/
theorem C8_counterexample :
    ((inputCalls (InCfg.mk Settings.cd_quality 2048) 2 ([] : List Nat)
        [InStep.avail 512 (DevRes.ok (List.replicate 1024 0))]).events.map inEventTag
      = [Tag.tIn, Tag.tIn]) ∧
    ([Tag.tIn, Tag.tIn] ≠ [Tag.tIn, Tag.tUpdate]) := by
  have hbs : (InCfg.mk Settings.cd_quality 2048).settings.buffer_size = 512 := rfl
  constructor
  · have h1 := inputNext_cons_read (InCfg.mk Settings.cd_quality 2048)
      ([] : List Nat) (List.replicate 1024 0) 512 []
      (by rw [hbs, List.length_nil]; omega)
      (by refine ⟨by omega, ?_⟩
          show List.length ([] : List Nat) + 512 ≤ 2048
          rw [List.length_nil]
          omega)
    have h2 := inputNext_of_le (InCfg.mk Settings.cd_quality 2048)
      (([] : List Nat) ++ List.replicate 1024 0) []
      (by rw [hbs, List.nil_append, List.length_replicate]; omega)
    have h3 := inputNext_of_le (InCfg.mk Settings.cd_quality 2048)
      ((([] : List Nat) ++ List.replicate 1024 0).drop
        (InCfg.mk Settings.cd_quality 2048).settings.buffer_size) []
      (by rw [hbs, List.nil_append, List.length_drop, List.length_replicate])
    simp only [inputCalls, h1, h2, h3]
    simp only [List.map_cons, List.map_nil, inEventTag]
  · decide

/-- C8 (amended): every event a single-directional blocking stream
produces is an Input event (input stream) or an Output event (output
stream); the single-directional Event types have no Update variant, so
no Update events ever interleave. -/
theorem C8_amended {I O : Type} (cfg : InCfg) (ocfg : OutCfg) (zero : O)
    (touch : List O → List O) (k j : Nat) (buffer : List I)
    (st : OutState O) (trace : List (InStep I)) (otrace : List OutStep) :
    (∀ t ∈ ((inputCalls cfg k buffer trace).events.map inEventTag), t = Tag.tIn) ∧
    (∀ t ∈ ((outputCalls zero ocfg touch j st otrace).events.map outEventTag),
      t = Tag.tOut) := by
  constructor
  · intro t ht
    rcases List.mem_map.mp ht with ⟨e, _, he⟩
    rw [← he]
    rfl
  · intro t ht
    rcases List.mem_map.mp ht with ⟨e, _, he⟩
    rw [← he]
    rfl

theorem C8_amended_witness :
    Tag.tIn = Tag.tIn :=
  (C8_amended (InCfg.mk (Settings.mk 8000 1 1) 2048)
      (OutCfg.mk (Settings.mk 8000 1 1) 2048) (0 : Nat) (fun w => w) 1 1
      ([] : List Nat) (OutState.mk [] [])
      [InStep.avail 1 (DevRes.ok [5])] [OutStep.avail 0 (DevRes.ok ())]).1
    Tag.tIn (by decide)

/-- C9: For every stream, close() marks the stream as closed before
attempting the device close, so even when close() returns an error the
stream is considered closed; consequently Drop attempts close() only
when the stream was never closed (dropping an already-closed stream
performs no device calls), and a failing drop-time close is reported
(once) without panicking — `dropStream` always returns normally. -/
theorem C9_close_lifecycle (s : StreamLifecycle) (c t : CallRes) :
    ((closeStream s c t).state.is_closed = true) ∧
    (s.is_closed = true →
      (dropStream s c t).calls = [] ∧ (dropStream s c t).reported = 0) ∧
    (s.is_closed = false →
      (dropStream s c t).state.is_closed = true ∧
      ((closeStream s c t).result.isSome = true → (dropStream s c t).reported = 1) ∧
      ((closeStream s c t).result = none → (dropStream s c t).reported = 0)) := by
  obtain ⟨b⟩ := s
  cases b <;> cases c <;> cases t <;>
    simp [closeStream, dropStream]

theorem C9_close_lifecycle_witness :
    ((closeStream (StreamLifecycle.mk false) (CallRes.fail (PaError.mk 3))
        CallRes.ok).state.is_closed = true) ∧
    ((dropStream (StreamLifecycle.mk true) (CallRes.fail (PaError.mk 3))
        CallRes.ok).calls = []) ∧
    ((dropStream (StreamLifecycle.mk false) (CallRes.fail (PaError.mk 3))
        CallRes.ok).reported = 1) :=
  ⟨(C9_close_lifecycle (StreamLifecycle.mk false) (CallRes.fail (PaError.mk 3))
      CallRes.ok).1,
   ((C9_close_lifecycle (StreamLifecycle.mk true) (CallRes.fail (PaError.mk 3))
      CallRes.ok).2.1 rfl).1,
   (((C9_close_lifecycle (StreamLifecycle.mk false) (CallRes.fail (PaError.mk 3))
      CallRes.ok).2.2 rfl).2.1 (by decide))⟩

/-- C10: Every Out event yielded by a blocking output or duplex stream
hands the caller a window of exactly buffer_size() samples, each
initialized to Sample::zero() — for the output stream the window is
`settings.buffer_size()` zeroes appended to the user buffer after any
unflushed caller samples were moved to the deque; for the duplex
SoundStream it is `update_settings.buffer_size()` zeroes appended after
the unflushed samples pending in output_buffer.  A caller that writes
nothing into its windows therefore contributes exact silence: every
payload the output stream writes to the device is all zeroes. -/
theorem C10_out_windows {I O : Type} (zero : O) (cfg : OutCfg) (scfg : SSCfg)
    (touch : List O → List O) (k j : Nat) (st : OutState O)
    (trace : List OutStep) (s : SSState I O) (strace : List (SSStep I)) :
    (∀ w ∈ (outputCalls zero cfg touch k st trace).events,
      w = List.replicate cfg.settings.buffer_size zero) ∧
    (∀ e ∈ ssCalls zero scfg j s strace, ∀ (w : List O) (stg : Settings),
      e = SSEvent.evOut w stg →
      w = List.replicate scfg.update_settings.buffer_size zero) ∧
    (allZero zero st.buffer → allZero zero st.user →
      ∀ p ∈ (outputCalls zero cfg (fun w => w) k st trace).writes,
        allZero zero p) := by
  refine ⟨?_, ?_, ?_⟩
  · intro w hw
    exact outputCalls_event_window zero cfg touch k st trace w hw
  · intro e he w stg hw
    exact ssCalls_out_window zero scfg j s strace e he w stg hw
  · intro hb hu p hp
    exact outputCalls_allZero zero cfg k st trace hb hu p hp

theorem C10_out_windows_witness :
    (([0] : List Nat)
        = List.replicate (OutCfg.mk (Settings.mk 8000 1 1) 2048).settings.buffer_size 0) ∧
    allZero (0 : Nat) [0] :=
  ⟨(C10_out_windows (0 : Nat) (OutCfg.mk (Settings.mk 8000 1 1) 2048)
      (SSCfg.mk (Settings.mk 8000 1 1) (Settings.mk 8000 1 1)) (fun w => w) 1 1
      (OutState.mk [] []) [OutStep.avail 0 (DevRes.ok ())]
      (ssInit (0 : Nat) : SSState Nat Nat) []).1 [0] (by decide),
   (C10_out_windows (0 : Nat) (OutCfg.mk (Settings.mk 8000 1 1) 2048)
      (SSCfg.mk (Settings.mk 8000 1 1) (Settings.mk 8000 1 1)) (fun w => w) 1 1
      (OutState.mk [0] []) [OutStep.avail 1 (DevRes.ok ())]
      (ssInit (0 : Nat) : SSState Nat Nat) []).2.2
      (by intro x hx; simp at hx; exact hx) (by intro x hx; simp at hx)
      [0] (by decide)⟩

end SoundStream
